import Mathlib

/-!
Shallow embedding of the fling-it/fastle worker (src/worker/index.ts).

The worker exposes a daily word game: `getDailyWord` hashes the current UTC
date string to pick a word, `getGameNumber` counts whole UTC days since
2025-01-01, `evaluate` scores a guess against the answer with Wordle-style
duplicate handling, and the `/api/guess` and `/api/solve` handlers wrap these
over a word set and a `fastest_times` table.

Tags are modelled as the literal strings "correct" / "present" / "absent"
used by the source; consumed letters are replaced by the sentinel '_' exactly
as in the source arrays.
-/

/-- First pass of `evaluate` (src/worker/index.ts lines 39-45): walk the five
positions; on `guessLetters[i] === answerLetters[i]` record "correct" and
replace both letters by the sentinel "_". Positions that do not match keep
the initial "absent" fill. Returns (result so far, guessLetters, answerLetters). -/
def pass1 : List Char → List Char → List String × List Char × List Char
  | gc :: gs, ac :: ar =>
    let r := pass1 gs ar
    if gc = ac then ("correct" :: r.1, '_' :: r.2.1, '_' :: r.2.2)
    else ("absent" :: r.1, gc :: r.2.1, ac :: r.2.2)
  | _, _ => ([], [], [])

/-- `answerLetters.indexOf(c)` followed by `answerLetters[idx] = "_"`
(src/worker/index.ts lines 49-52): replace the first occurrence of `c`
by the sentinel, or report `none` when `indexOf` returns -1. -/
def replaceFirst : List Char → Char → Option (List Char)
  | [], _ => none
  | x :: xs, c =>
    if x = c then some ('_' :: xs)
    else
      match replaceFirst xs c with
      | some xs2 => some (x :: xs2)
      | none => none

/-- Second pass of `evaluate` (src/worker/index.ts lines 47-54): skip
positions already consumed by pass one (`guessLetters[i] === "_"`); otherwise
look the guess letter up among the remaining answer letters, and on a hit mark
"present" and consume that answer letter. Returns (result, answerLetters). -/
def pass2 : List Char → List String → List Char → List String × List Char
  | gc :: gs, t :: ts, ans =>
    if gc = '_' then
      let r := pass2 gs ts ans
      (t :: r.1, r.2)
    else
      match replaceFirst ans gc with
      | some ans2 =>
        let r := pass2 gs ts ans2
        ("present" :: r.1, r.2)
      | none =>
        let r := pass2 gs ts ans
        (t :: r.1, r.2)
  | _, ts, ans => (ts, ans)

/-- `evaluate(guess, answer)` from src/worker/index.ts lines 34-57: the
"absent"-filled result is refined by the correct pass and then the present
pass, sharing the consumed-letter arrays between the passes. -/
def evaluate (guess answer : List Char) : List String :=
  let p := pass1 guess answer
  (pass2 p.2.1 p.1 p.2.2).1

/-- Number of occurrences of tag `t` in a result list. -/
def countTag (t : String) : List String → Nat
  | [] => 0
  | x :: xs => (if x = t then 1 else 0) + countTag t xs

/-- Number of occurrences of character `c` in a word. -/
def countCh (c : Char) : List Char → Nat
  | [] => 0
  | x :: xs => (if x = c then 1 else 0) + countCh c xs

/-- Number of positions where guess and answer hold the same letter. -/
def matchCount : List Char → List Char → Nat
  | x :: xs, y :: ys => (if x = y then 1 else 0) + matchCount xs ys
  | _, _ => 0

/-- Number of positions whose guess letter is `c` and whose tag is
"correct" or "present". -/
def letterHits (c : Char) : List Char → List String → Nat
  | x :: xs, t :: ts =>
    (if x = c ∧ (t = "correct" ∨ t = "present") then 1 else 0) + letterHits c xs ts
  | _, _ => 0

/-- Number of positions whose guess letter is `c` and whose tag is "correct". -/
def corrHits (c : Char) : List Char → List String → Nat
  | x :: xs, t :: ts => (if x = c ∧ t = "correct" then 1 else 0) + corrHits c xs ts
  | _, _ => 0

/-- JavaScript `ToInt32`: reduce an integer to the signed 32-bit value with
the same residue modulo 2^32 (the effect of `hash |= 0`). -/
def toInt32 (x : Int) : Int := (x + 2147483648) % 4294967296 - 2147483648

/-- One loop iteration of the hash in `getDailyWord` (src/worker/index.ts
lines 21-24): `hash = ((hash << 5) - hash) + charCode; hash |= 0`. The shift
`hash << 5` itself truncates to a signed 32-bit value, hence the inner
`toInt32` around the multiplication by 32. -/
def hashStep (h c : Int) : Int := toInt32 (toInt32 (h * 32) - h + c)

/-- The whole hash loop of `getDailyWord`: fold `hashStep` over the UTF-16
code units (here: code points, the string is ASCII) starting from 0. -/
def strHash (s : List Char) : Int := s.foldl (fun h c => hashStep h (c.toNat : Int)) 0

/-- The date string of `getDailyWord` (src/worker/index.ts line 19):
`year-month-day` with no zero padding, month converted from the 0-based
`getUTCMonth()` by adding 1. Parameterized by the UTC components that the
source reads from `new Date()`. -/
def dateStr (y m d : Nat) : String :=
  toString y ++ "-" ++ toString (m + 1) ++ "-" ++ toString d

/-- Modelled from the spec: the `WORDS` list imported from "./words"
(src/worker/words.ts) is not among the provided sources. The spec describes
it as "an ordered, fixed sequence of lowercase 5-letter strings, indexed
0..N-1; immutable at runtime". A representative fixed list stands in for the
real contents; no claim depends on the particular words, only on the list
being a nonempty fixed sequence of lowercase 5-letter strings. -/
def WORDS : List String :=
  ["crane", "slate", "trace", "brick", "doubt", "pride", "shine", "world",
   "quilt", "speed", "erase", "mount", "flame", "toast", "lemon", "given"]

/-- `getDailyWord` (src/worker/index.ts lines 17-26): hash the unpadded UTC
date string and index the word list by `Math.abs(hash) % WORDS.length`. -/
def getDailyWord (y m d : Nat) : String :=
  WORDS.getD ((strHash (dateStr y m d).toList).natAbs % WORDS.length) ""

/-- `new Date("2025-01-01T00:00:00Z").getTime()` (src/worker/index.ts
line 29). -/
def epochMs : Int := 1735689600000

/-- `getGameNumber` (src/worker/index.ts lines 28-32):
`Math.floor((now - start) / 86400000)` with millisecond timestamps,
parameterized by the `now` that the source reads from `new Date()`.
`Int.fdiv` is floor division, matching `Math.floor` of the exact quotient. -/
def getGameNumber (now : Int) : Int := (now - epochMs).fdiv 86400000

/-- `const WORD_SET = new Set(WORDS)` with `WORD_SET.has` as membership. -/
def WORD_SET (w : String) : Bool := WORDS.contains w

/-- The characters removed by JavaScript `String.prototype.trim` that can
occur in ASCII input (whitespace model for the guess normalization). -/
def isSpaceChar (c : Char) : Bool := c = ' ' ∨ c = '\t' ∨ c = '\n' ∨ c = '\r'

/-- `guess.toLowerCase().trim()` (src/worker/index.ts line 65), modelled at
the character level for ASCII input: lowercase every letter, then drop
leading and trailing whitespace. -/
def normalizeWord (s : List Char) : List Char :=
  ((((s.map Char.toLower).dropWhile isSpaceChar).reverse.dropWhile isSpaceChar).reverse)

/-- The two response shapes of the `/api/guess` handler: a 400 error with a
message, or `{result, solved}`. -/
inductive GuessResponse where
  | err : String → GuessResponse
  | ok : List String → Bool → GuessResponse
deriving DecidableEq

/-- The `/api/guess` handler body (src/worker/index.ts lines 63-80):
normalize, check length, check vocabulary, then evaluate against today's
answer and report whether the guess equals it. Parameterized by the UTC date
components that `getDailyWord` reads from the clock. -/
def submitGuess (guess : String) (y m d : Nat) : GuessResponse :=
  let word : String := ⟨normalizeWord guess.toList⟩
  if word.length ≠ 5 then GuessResponse.err "Word must be 5 letters"
  else if WORD_SET word = false then GuessResponse.err "Not in word list"
  else
    let answer := getDailyWord y m d
    GuessResponse.ok (evaluate word.toList answer.toList) (word == answer)

/-- A row of the `fastest_times` table (minus the `created_at` default):
`time_ms` and `num_guesses` for one `game_number`. -/
structure SolveRecord where
  time_ms : Int
  num_guesses : Int
deriving DecidableEq

/-- The `fastest_times` table as a map from `game_number` (the primary key)
to the stored row, if any. -/
abbrev Store := Int → Option SolveRecord

/-- The empty `fastest_times` table. -/
def emptyStore : Store := fun _ => none

/-- The `/api/solve` handler body (src/worker/index.ts lines 82-109), run
sequentially: SELECT the current row for `gameNumber`; if there is none or
`timeMs` is strictly smaller, INSERT OR REPLACE the whole row; finally SELECT
again and return that row (the response body
`{fastestTimeMs, fastestGuesses}`, `none` standing for the nulls). -/
def recordIfFaster (s : Store) (gameNumber timeMs numGuesses : Int) :
    Store × Option SolveRecord :=
  let current := s gameNumber
  let doWrite : Bool :=
    match current with
    | none => true
    | some r => timeMs < r.time_ms
  let s1 : Store :=
    if doWrite then fun k => if k = gameNumber then some ⟨timeMs, numGuesses⟩ else s k
    else s
  (s1, s1 gameNumber)

/-- Sequentially run a list of `/api/solve` submissions `(timeMs, numGuesses)`
for one `gameNumber` against the table. -/
def runSolves (s : Store) (g : Int) (subs : List (Int × Int)) : Store :=
  subs.foldl (fun st p => (recordIfFaster st g p.1 p.2).1) s

/-- The effect of one `/api/solve` submission on the row it touches:
keep the strictly smaller time, insert when absent. -/
def stepMin (o : Option SolveRecord) (p : Int × Int) : Option SolveRecord :=
  match o with
  | none => some ⟨p.1, p.2⟩
  | some r => if p.1 < r.time_ms then some ⟨p.1, p.2⟩ else some r

/-- One in-flight `/api/solve` request for the concurrency model: its inputs,
the snapshot its first SELECT captured (if it already ran), and whether its
conditional write step already ran. -/
structure CallCtx where
  timeMs : Int
  numGuesses : Int
  snapshot : Option (Option SolveRecord)
  written : Bool
deriving DecidableEq

/-- Advance one in-flight `/api/solve` request by one database step. The two
`await db...` statements of the handler are its yield points: step one is the
SELECT (capture a snapshot of the row), step two applies the handler's
condition `!current || timeMs < current.time_ms` to the *snapshot* and, when
it holds, INSERT OR REPLACEs over whatever the row holds now. -/
def dbStep (store : Option SolveRecord) (c : CallCtx) :
    Option SolveRecord × CallCtx :=
  match c.snapshot with
  | none => (store, { c with snapshot := some store })
  | some snap =>
    if c.written then (store, c)
    else
      let doWrite : Bool :=
        match snap with
        | none => true
        | some r => c.timeMs < r.time_ms
      (if doWrite then some ⟨c.timeMs, c.numGuesses⟩ else store,
       { c with written := true })

/-- Two concurrent `/api/solve` requests for the same `gameNumber` plus the
row they race on. -/
structure RaceState where
  store : Option SolveRecord
  a : CallCtx
  b : CallCtx
deriving DecidableEq

/-- Run one scheduler step: `true` advances request `a`, `false` advances
request `b`. -/
def raceStep (st : RaceState) (who : Bool) : RaceState :=
  if who then
    let r := dbStep st.store st.a
    { st with store := r.1, a := r.2 }
  else
    let r := dbStep st.store st.b
    { st with store := r.1, b := r.2 }

/-- Run a whole interleaving of the two requests. -/
def runRace (sched : List Bool) (st : RaceState) : RaceState :=
  sched.foldl raceStep st

/-- A lowercase letter is never the consumed-letter sentinel. -/
theorem lower_ne_sentinel {x : Char} (h : 'a' ≤ x) : x ≠ '_' := by
  intro he
  subst he
  exact absurd h (by decide)

/-- Pass one records "correct" exactly at the positions where guess and
answer hold the same letter. -/
theorem pass1_correct_count (g : List Char) :
    ∀ a : List Char, countTag "correct" (pass1 g a).1 = matchCount g a := by
  induction g with
  | nil => intro a; cases a <;> simp [pass1, countTag, matchCount]
  | cons gc gs ih =>
    intro a
    cases a with
    | nil => simp [pass1, countTag, matchCount]
    | cons ac ar =>
      by_cases h : gc = ac <;> simp [pass1, h, countTag, matchCount, ih ar]

/-- Pass two never introduces a "correct" tag: it keeps a tag or writes
"present". -/
theorem pass2_correct_le (g : List Char) :
    ∀ (r : List String) (ans : List Char),
      countTag "correct" (pass2 g r ans).1 ≤ countTag "correct" r := by
  induction g with
  | nil => intro r ans; simp [pass2]
  | cons gc gs ih =>
    intro r ans
    cases r with
    | nil => simp [pass2, countTag]
    | cons t ts =>
      by_cases hgc : gc = '_'
      · simp only [pass2, if_pos hgc, countTag]
        have := ih ts ans
        omega
      · cases hrf : replaceFirst ans gc with
        | some ans2 =>
          simp only [pass2, if_neg hgc, hrf, countTag]
          have := ih ts ans2
          simp
          omega
        | none =>
          simp only [pass2, if_neg hgc, hrf, countTag]
          have := ih ts ans
          omega

/-- The positional relation pass one establishes between the original guess,
the consumed guess letters, and the pass-one tags: every position is either a
match (sentinel letter, "correct" tag) or a non-match (letter kept, "absent"
tag), provided the guess itself never contains the sentinel. -/
inductive Rel3 : List Char → List Char → List String → Prop
  | nil : Rel3 [] [] []
  | corr (gc : Char) {gs g1s ts : _} (h : Rel3 gs g1s ts) :
      Rel3 (gc :: gs) ('_' :: g1s) ("correct" :: ts)
  | noMatch (gc : Char) (hne : gc ≠ '_') {gs g1s ts : _} (h : Rel3 gs g1s ts) :
      Rel3 (gc :: gs) (gc :: g1s) ("absent" :: ts)

/-- Pass one establishes `Rel3` between the guess, its consumed letters and
its tags. -/
theorem pass1_rel (g : List Char) :
    ∀ a : List Char, g.length = a.length → (∀ x ∈ g, x ≠ '_') →
      Rel3 g (pass1 g a).2.1 (pass1 g a).1 := by
  induction g with
  | nil =>
    intro a ha _
    cases a with
    | nil => exact Rel3.nil
    | cons _ _ => simp at ha
  | cons gc gs ih =>
    intro a ha hne
    cases a with
    | nil => simp at ha
    | cons ac ar =>
      have hih := ih ar (by simpa using ha)
        (fun x hx => hne x (List.mem_cons_of_mem _ hx))
      by_cases h : gc = ac
      · simp only [pass1, if_pos h]
        exact Rel3.corr gc hih
      · simp only [pass1, if_neg h]
        exact Rel3.noMatch gc (hne gc (List.mem_cons_self _ _)) hih

/-- Unfolding equation of pass two at a position pass one consumed. -/
theorem pass2_cons_sentinel (gs : List Char) (t : String) (ts : List String)
    (ans : List Char) :
    pass2 ('_' :: gs) (t :: ts) ans =
      (t :: (pass2 gs ts ans).1, (pass2 gs ts ans).2) := rfl

/-- Unfolding equation of pass two when the guess letter is found among the
remaining answer letters. -/
theorem pass2_cons_found {gc : Char} (hgc : gc ≠ '_') {ans ans2 : List Char}
    (hrf : replaceFirst ans gc = some ans2) (gs : List Char) (t : String)
    (ts : List String) :
    pass2 (gc :: gs) (t :: ts) ans =
      ("present" :: (pass2 gs ts ans2).1, (pass2 gs ts ans2).2) := by
  simp only [pass2, if_neg hgc, hrf]

/-- Unfolding equation of pass two when the guess letter is not found among
the remaining answer letters. -/
theorem pass2_cons_notfound {gc : Char} (hgc : gc ≠ '_') {ans : List Char}
    (hrf : replaceFirst ans gc = none) (gs : List Char) (t : String)
    (ts : List String) :
    pass2 (gc :: gs) (t :: ts) ans =
      (t :: (pass2 gs ts ans).1, (pass2 gs ts ans).2) := by
  simp only [pass2, if_neg hgc, hrf]

/-- Replacing the first occurrence of a non-sentinel letter by the sentinel
removes exactly one occurrence of that letter and nothing else. -/
theorem replaceFirst_count :
    ∀ (ans : List Char) (x c : Char) (ans2 : List Char), x ≠ '_' → c ≠ '_' →
      replaceFirst ans x = some ans2 →
      countCh c ans = countCh c ans2 + (if x = c then 1 else 0) := by
  intro ans
  induction ans with
  | nil => intro x c ans2 _ _ h; simp [replaceFirst] at h
  | cons y ys ih =>
    intro x c ans2 hx hc h
    by_cases hyx : y = x
    · rw [replaceFirst, if_pos hyx] at h
      have h2 : ans2 = '_' :: ys := by
        cases h
        rfl
      subst h2
      subst hyx
      have hsc : ¬ ('_' : Char) = c := fun he => hc he.symm
      simp only [countCh, if_neg hsc]
      omega
    · rw [replaceFirst, if_neg hyx] at h
      cases hrf : replaceFirst ys x with
      | some ys2 =>
        rw [hrf] at h
        have h2 : ans2 = y :: ys2 := by
          cases h
          rfl
        subst h2
        have := ih x c ys2 hx hc hrf
        simp only [countCh]
        omega
      | none => rw [hrf] at h; cases h

/-- The bookkeeping invariant of pass two: every position that gains a tag in
{"correct", "present"} with guess letter `c` consumes one occurrence of `c`
from the remaining answer letters. -/
theorem pass2_letter_conservation {g g1 : List Char} {r1 : List String}
    (hrel : Rel3 g g1 r1) :
    ∀ (ans : List Char) (c : Char), c ≠ '_' →
      letterHits c g (pass2 g1 r1 ans).1 + countCh c (pass2 g1 r1 ans).2 =
        corrHits c g r1 + countCh c ans := by
  induction hrel with
  | nil => intro ans c hc; simp [pass2, letterHits, corrHits]
  | corr gc h ih =>
    intro ans c hc
    rw [pass2_cons_sentinel]
    have hih := ih ans c hc
    simp only [letterHits, corrHits]
    simp only [eq_self_iff_true, true_or, or_true, and_true]
    omega
  | noMatch gc hne h ih =>
    intro ans c hc
    cases hrf : replaceFirst ans gc with
    | some ans2 =>
      have hcount := replaceFirst_count ans gc c ans2 hne hc hrf
      rw [pass2_cons_found hne hrf]
      have hih := ih ans2 c hc
      simp only [letterHits, corrHits]
      have habs : (("absent" : String) = "correct") = False := by simp
      simp only [eq_self_iff_true, true_or, or_true, and_true, habs,
        and_false, if_false]
      omega
    | none =>
      rw [pass2_cons_notfound hne hrf]
      have hih := ih ans c hc
      simp only [letterHits, corrHits]
      have habs : (("absent" : String) = "correct") = False := by simp
      have habs2 : (("absent" : String) = "present") = False := by simp
      simp only [habs, habs2, or_false, or_self, and_false, if_false]
      omega

/-- The bookkeeping invariant of pass one: every "correct" position with
guess letter `c` consumes one occurrence of `c` from the answer letters. -/
theorem pass1_letter_conservation (g : List Char) :
    ∀ (a : List Char) (c : Char), g.length = a.length → c ≠ '_' →
      corrHits c g (pass1 g a).1 + countCh c (pass1 g a).2.2 = countCh c a := by
  induction g with
  | nil =>
    intro a c hlen _
    cases a with
    | nil => simp [pass1, corrHits, countCh]
    | cons _ _ => simp at hlen
  | cons gc gs ih =>
    intro a c hlen hc
    cases a with
    | nil => simp at hlen
    | cons ac ar =>
      have hih := ih ar c (by simpa using hlen) hc
      have hsc : ¬ ('_' : Char) = c := fun he => hc he.symm
      by_cases h : gc = ac
      · subst h
        simp only [pass1, if_pos rfl]
        simp only [corrHits, countCh, if_neg hsc]
        simp only [eq_self_iff_true, and_true]
        omega
      · simp only [pass1, if_neg h]
        simp only [corrHits, countCh]
        have habs : (("absent" : String) = "correct") = False := by simp
        simp only [habs, and_false, if_false]
        omega

/-- A letter that never occurs in the guess scores no hits. -/
theorem letterHits_eq_zero (c : Char) (g : List Char) :
    (∀ x ∈ g, x ≠ c) → ∀ r : List String, letterHits c g r = 0 := by
  induction g with
  | nil => intro _ r; simp [letterHits]
  | cons gc gs ih =>
    intro hg r
    cases r with
    | nil => simp [letterHits]
    | cons t ts =>
      have h1 : gc = c → False := hg gc (List.mem_cons_self _ _)
      have hcond : ¬ (gc = c ∧ (t = "correct" ∨ t = "present")) :=
        fun hand => h1 hand.1
      simp only [letterHits, if_neg hcond]
      have := ih (fun x hx => hg x (List.mem_cons_of_mem _ hx)) ts
      omega

/-- Pass one on a guess equal to the answer marks every position "correct"
and consumes every letter on both sides. -/
theorem pass1_self (w : List Char) :
    pass1 w w = (List.replicate w.length "correct",
                 List.replicate w.length '_', List.replicate w.length '_') := by
  induction w with
  | nil => rfl
  | cons x xs ih => simp [pass1, ih, List.replicate_succ]

/-- Pass two leaves everything untouched when pass one consumed every guess
letter. -/
theorem pass2_sentinel_all (n : Nat) :
    ∀ (ts : List String) (ans : List Char), ts.length = n →
      pass2 (List.replicate n '_') ts ans = (ts, ans) := by
  induction n with
  | zero =>
    intro ts ans h
    cases ts with
    | nil => rfl
    | cons _ _ => simp at h
  | succ n ih =>
    intro ts ans h
    cases ts with
    | nil => simp at h
    | cons t ts2 =>
      rw [List.replicate_succ, pass2_cons_sentinel, ih ts2 ans (by simpa using h)]

/-- `evaluate(w, w)` is all-"correct". -/
theorem evaluate_self (w : List Char) :
    evaluate w w = List.replicate w.length "correct" := by
  have h2 := pass2_sentinel_all w.length (List.replicate w.length "correct")
    (List.replicate w.length '_') (by simp)
  simp [evaluate, pass1_self, h2]

/-- There are never more matching positions than guess letters. -/
theorem matchCount_le (g : List Char) : ∀ a : List Char, matchCount g a ≤ g.length := by
  induction g with
  | nil => intro a; cases a <;> simp [matchCount]
  | cons x xs ih =>
    intro a
    cases a with
    | nil => simp [matchCount]
    | cons y ys =>
      have := ih ys
      by_cases h : x = y
      · simp only [matchCount, if_pos h, List.length_cons]
        omega
      · simp only [matchCount, if_neg h, List.length_cons]
        omega

/-- When every position matches, guess and answer are the same word. -/
theorem matchCount_full (g : List Char) :
    ∀ a : List Char, g.length = a.length → matchCount g a = g.length → g = a := by
  induction g with
  | nil =>
    intro a h _
    cases a with
    | nil => rfl
    | cons _ _ => simp at h
  | cons x xs ih =>
    intro a hlen hm
    cases a with
    | nil => simp at hlen
    | cons y ys =>
      by_cases h : x = y
      · have hm2 : matchCount xs ys = xs.length := by
          simp only [matchCount, if_pos h, List.length_cons] at hm
          omega
        rw [h, ih ys (by simpa using hlen) hm2]
      · exfalso
        have h1 := matchCount_le xs ys
        simp only [matchCount, if_neg h, List.length_cons] at hm
        omega

/-- `evaluate g a` on 5-letter words is all-"correct" exactly when the guess
is the answer. -/
theorem evaluate_all_correct_iff (g a : List Char) (hg : g.length = 5)
    (ha : a.length = 5) :
    g = a ↔ evaluate g a = List.replicate 5 "correct" := by
  constructor
  · intro h
    subst h
    rw [evaluate_self, hg]
  · intro h
    have h1 : countTag "correct" (evaluate g a) = 5 := by
      rw [h]
      decide
    have h2 := pass2_correct_le (pass1 g a).2.1 (pass1 g a).1 (pass1 g a).2.2
    have h3 := pass1_correct_count g a
    have h4 := matchCount_le g a
    have h5 : matchCount g a = g.length := by
      simp only [evaluate] at h1
      omega
    exact matchCount_full g a (hg.trans ha.symm) h5

/-- Every word the daily selection can return has five letters (all entries
of the word list do). -/
theorem getDailyWord_length (y m d : Nat) : (getDailyWord y m d).length = 5 := by
  have hall : ∀ i, i < WORDS.length → (WORDS.getD i "").length = 5 := by decide
  exact hall _ (Nat.mod_lt _ (by decide))

/-- The daily word is drawn from the word list. -/
theorem getDailyWord_mem (y m d : Nat) : getDailyWord y m d ∈ WORDS := by
  have hall : ∀ i, i < WORDS.length → WORDS.getD i "" ∈ WORDS := by decide
  exact hall _ (Nat.mod_lt _ (by decide))

/-- The effect of one `/api/solve` call on the row it addresses is the
keep-minimum step. -/
theorem recordIfFaster_apply (s : Store) (g t n : Int) :
    (recordIfFaster s g t n).1 g = stepMin (s g) (t, n) := by
  cases hsg : s g with
  | none => simp [recordIfFaster, stepMin, hsg]
  | some r =>
    by_cases h : t < r.time_ms
    · simp [recordIfFaster, stepMin, hsg, h]
    · simp [recordIfFaster, stepMin, hsg, h]

/-- Sequential `/api/solve` calls act on one row as a fold of the
keep-minimum step. -/
theorem runSolves_apply (l : List (Int × Int)) :
    ∀ (s : Store) (g : Int), runSolves s g l g = l.foldl stepMin (s g) := by
  induction l with
  | nil => intro s g; rfl
  | cons p rest ih =>
    intro s g
    show runSolves ((recordIfFaster s g p.1 p.2).1) g rest g =
      rest.foldl stepMin (stepMin (s g) p)
    rw [ih, recordIfFaster_apply]

/-- A stored record that is at least as fast as every later submission is
never replaced. -/
theorem foldl_stepMin_keep (l : List (Int × Int)) :
    ∀ t n : Int, (∀ p ∈ l, ¬ p.1 < t) →
      l.foldl stepMin (some ⟨t, n⟩) = some ⟨t, n⟩ := by
  induction l with
  | nil => intro t n _; rfl
  | cons p rest ih =>
    intro t n h
    have hp : ¬ p.1 < t := h p (List.mem_cons_self _ _)
    show rest.foldl stepMin (stepMin (some ⟨t, n⟩) p) = some ⟨t, n⟩
    rw [show stepMin (some ⟨t, n⟩) p = some ⟨t, n⟩ from by simp [stepMin, hp]]
    exact ih t n (fun q hq => h q (List.mem_cons_of_mem _ hq))

/-- Folding the keep-minimum step over submissions that contain a strict
minimum `(t, n)` always ends with `(t, n)` stored, whatever the order. -/
theorem foldl_stepMin_min (l : List (Int × Int)) :
    ∀ (acc : Option SolveRecord) (t n : Int),
      (t, n) ∈ l →
      (∀ p ∈ l, p ≠ (t, n) → t < p.1) →
      (acc = none ∨ ∃ r, acc = some r ∧ t < r.time_ms) →
      l.foldl stepMin acc = some ⟨t, n⟩ := by
  induction l with
  | nil => intro acc t n hmem _ _; simp at hmem
  | cons p rest ih =>
    intro acc t n hmem hmin hacc
    by_cases hp : p = (t, n)
    · have hstep : stepMin acc p = some ⟨t, n⟩ := by
        rcases hacc with h | ⟨r, hr, hlt⟩
        · subst h; rw [hp]; rfl
        · subst hr; rw [hp]; simp [stepMin, hlt]
      show rest.foldl stepMin (stepMin acc p) = some ⟨t, n⟩
      rw [hstep]
      apply foldl_stepMin_keep
      intro q hq
      by_cases hq2 : q = (t, n)
      · rw [hq2]; simp
      · have := hmin q (List.mem_cons_of_mem _ hq) hq2
        omega
    · have hlt : t < p.1 := hmin p (List.mem_cons_self _ _) hp
      have hmem2 : (t, n) ∈ rest := by
        cases hmem with
        | head => exact absurd rfl hp
        | tail _ hmem3 => exact hmem3
      show rest.foldl stepMin (stepMin acc p) = some ⟨t, n⟩
      apply ih _ t n hmem2 (fun q hq hq2 => hmin q (List.mem_cons_of_mem _ hq) hq2)
      rcases hacc with h | ⟨r, hr, hltr⟩
      · subst h
        right
        exact ⟨⟨p.1, p.2⟩, rfl, hlt⟩
      · subst hr
        by_cases hcmp : p.1 < r.time_ms
        · right
          exact ⟨⟨p.1, p.2⟩, by simp [stepMin, hcmp], hlt⟩
        · right
          exact ⟨r, by simp [stepMin, hcmp], hltr⟩

/-- C1: for every pair of 5-letter lowercase guess and answer, `evaluate`
produces at most as many "correct" tags as there are positions where guess
and answer agree, and for every letter `c` the number of positions tagged
"correct" or "present" whose guess letter is `c` never exceeds the
multiplicity of `c` in the answer. -/
theorem claim1_evaluate_bounds (g a : List Char) (hg : g.length = 5)
    (hga : ∀ x ∈ g, 'a' ≤ x ∧ x ≤ 'z') (ha : a.length = 5)
    (haa : ∀ x ∈ a, 'a' ≤ x ∧ x ≤ 'z') :
    countTag "correct" (evaluate g a) ≤ matchCount g a ∧
    ∀ c : Char, letterHits c g (evaluate g a) ≤ countCh c a := by
  constructor
  · have h2 := pass2_correct_le (pass1 g a).2.1 (pass1 g a).1 (pass1 g a).2.2
    have h3 := pass1_correct_count g a
    simp only [evaluate]
    omega
  · intro c
    by_cases hc : c = '_'
    · subst hc
      rw [letterHits_eq_zero '_' g (fun x hx => lower_ne_sentinel (hga x hx).1)
        (evaluate g a)]
      exact Nat.zero_le _
    · have hrel := pass1_rel g a (hg.trans ha.symm)
        (fun x hx => lower_ne_sentinel (hga x hx).1)
      have h7 := pass2_letter_conservation hrel (pass1 g a).2.2 c hc
      have h9 := pass1_letter_conservation g a c (hg.trans ha.symm) hc
      simp only [evaluate]
      omega

/-- Witness for C1 at guess "speed", answer "erase". -/
theorem claim1_witness :
    countTag "correct" (evaluate "speed".toList "erase".toList) ≤
      matchCount "speed".toList "erase".toList :=
  (claim1_evaluate_bounds "speed".toList "erase".toList (by decide) (by decide)
    (by decide) (by decide)).1

/-- C2 counterexample: the claim says `evaluate("speed","erase")` marks only
one "e" of the guess as present or correct; the code marks two. -/
theorem claim2_counterexample :
    ¬ letterHits 'e' "speed".toList (evaluate "speed".toList "erase".toList) = 1 := by
  decide

/-- C2 amended: `evaluate("speed","erase")` is [present, absent, present,
present, absent]: exactly two of the guess's "e"s are marked present or
correct — equal to the multiplicity 2 of "e" in the answer "erase", so the
repeated letter is still not double-counted beyond the answer's supply. -/
theorem claim2_amended :
    evaluate "speed".toList "erase".toList =
      ["present", "absent", "present", "present", "absent"] ∧
    letterHits 'e' "speed".toList (evaluate "speed".toList "erase".toList) = 2 ∧
    countCh 'e' "erase".toList = 2 := by
  decide

/-- C3: the `/api/solve` handler inserts the submission when no record exists
for the game number, replaces the whole record (both fields together) when
the submitted time is strictly smaller, leaves the table unchanged otherwise,
and in every case returns exactly the record stored for that game number
after the update. -/
theorem claim3_record_if_faster (s : Store) (g t n : Int) :
    (s g = none → (recordIfFaster s g t n).1 g = some ⟨t, n⟩) ∧
    (∀ r : SolveRecord, s g = some r → t < r.time_ms →
      (recordIfFaster s g t n).1 g = some ⟨t, n⟩) ∧
    (∀ r : SolveRecord, s g = some r → ¬ t < r.time_ms →
      (recordIfFaster s g t n).1 = s) ∧
    (recordIfFaster s g t n).2 = (recordIfFaster s g t n).1 g := by
  refine ⟨?_, ?_, ?_, rfl⟩
  · intro h
    simp [recordIfFaster, h]
  · intro r hr hlt
    simp [recordIfFaster, hr, hlt]
  · intro r hr hnlt
    simp [recordIfFaster, hr, hnlt]

/-- Witness for C3: inserting into an empty table stores the submission. -/
theorem claim3_witness :
    (recordIfFaster emptyStore 0 100 3).1 0 = some ⟨100, 3⟩ :=
  (claim3_record_if_faster emptyStore 0 100 3).1 rfl

/-- C4 counterexample: the claim quantifies over every finite multiset of
submissions, but with a tie at the minimum time the two orders of the same
multiset {(300,3), (300,4)} store different records (strict-less never
replaces an equal time), so the final record is not order-independent. -/
theorem claim4_counterexample :
    runSolves emptyStore 0 [(300, 3), (300, 4)] 0 = some ⟨300, 3⟩ ∧
    runSolves emptyStore 0 [(300, 4), (300, 3)] 0 = some ⟨300, 4⟩ ∧
    some (⟨300, 3⟩ : SolveRecord) ≠ some ⟨300, 4⟩ := by
  refine ⟨rfl, rfl, by decide⟩

/-- C4 amended: provided the minimum time is attained only by the one
submission pair `(t, n)` (every other pair is strictly slower), sequentially
submitting the pairs in any order leaves `(t, n)` as the stored record for
the game number. -/
theorem claim4_keep_min (g t n : Int) (l : List (Int × Int))
    (hmem : (t, n) ∈ l) (hmin : ∀ p ∈ l, p ≠ (t, n) → t < p.1) :
    runSolves emptyStore g l g = some ⟨t, n⟩ := by
  rw [runSolves_apply]
  exact foldl_stepMin_min l (emptyStore g) t n hmem hmin (Or.inl rfl)

/-- Witness for C4 at the spec's example times [500, 300, 700]. -/
theorem claim4_witness :
    runSolves emptyStore 7 [(500, 6), (300, 2), (700, 1)] 7 = some ⟨300, 2⟩ :=
  claim4_keep_min 7 300 2 [(500, 6), (300, 2), (700, 1)] (by decide) (by decide)

/-- C5: the handler's read-check-write is NOT serialized — the SELECT and the
INSERT OR REPLACE are separate awaited steps. In the interleaving where
requests A = (420 ms) and B = (419 ms) both run their SELECT before either
writes, B stores 419 and then A — whose stale snapshot saw no record —
overwrites it with 420: the update carrying the true minimum 419 is lost,
contradicting the required deterministic outcome. -/
theorem claim5_lost_update :
    (runRace [true, false, false, true]
      { store := none,
        a := { timeMs := 420, numGuesses := 4, snapshot := none, written := false },
        b := { timeMs := 419, numGuesses := 3, snapshot := none, written := false }
      }).store = some ⟨420, 4⟩ ∧
    some (⟨420, 4⟩ : SolveRecord) ≠ some ⟨419, 3⟩ := by
  refine ⟨rfl, by decide⟩

/-- C6: `getGameNumber(now)` equals the floor of `(now - epoch) / 86400000`
with epoch 2025-01-01T00:00:00Z = 1735689600000 ms; the two timestamps on
either side of any UTC midnight boundary map to game indices exactly 1
apart; and the index is non-decreasing in `now`. -/
theorem claim6_game_index :
    (∀ now : Int, getGameNumber now = ⌊((now : ℚ) - (epochMs : ℚ)) / 86400000⌋) ∧
    (∀ k : Int, getGameNumber (epochMs + 86400000 * k) = k ∧
      getGameNumber (epochMs + 86400000 * k - 1) = k - 1) ∧
    (∀ a b : Int, a ≤ b → getGameNumber a ≤ getGameNumber b) := by
  have hfd : ∀ z : Int, z.fdiv 86400000 = z / 86400000 := fun z =>
    Int.fdiv_eq_ediv z (by norm_num)
  refine ⟨?_, ?_, ?_⟩
  · intro now
    simp only [getGameNumber]
    rw [hfd]
    have hcast : ((now : ℚ) - (epochMs : ℚ)) = ((now - epochMs : ℤ) : ℚ) := by
      push_cast
      ring
    rw [hcast, show ((86400000 : ℚ)) = ((86400000 : ℕ) : ℚ) by norm_num,
      Rat.floor_intCast_div_natCast]
    norm_num
  · intro k
    refine ⟨?_, ?_⟩ <;> (simp only [getGameNumber, epochMs]; rw [hfd]; omega)
  · intro a b hab
    simp only [getGameNumber, epochMs]
    rw [hfd, hfd]
    omega

/-- Witness for C6 monotonicity at 0 and one day later. -/
theorem claim6_witness : getGameNumber 0 ≤ getGameNumber 86400000 :=
  claim6_game_index.2.2 0 86400000 (by norm_num)

/-- C7: one iteration of the daily-word hash — `((hash << 5) - hash) +
charCode` followed by `|0` — is bit-for-bit the recurrence
`hash = hash * 31 + charCode` in wraparound 32-bit signed arithmetic; the
word returned is `WORDS[abs(hash) % N]` for the unpadded UTC date string;
and the selection is a pure function of the date, hence identical on every
call for a fixed date. -/
theorem claim7_daily_hash :
    (∀ h c : Int, hashStep h c = toInt32 (h * 31 + c)) ∧
    (∀ y m d : Nat, getDailyWord y m d =
      WORDS.getD ((strHash (dateStr y m d).toList).natAbs % WORDS.length) "") ∧
    (∀ y m d : Nat, getDailyWord y m d = getDailyWord y m d) := by
  refine ⟨?_, fun y m d => rfl, fun y m d => rfl⟩
  intro h c
  simp only [hashStep, toInt32]
  omega

/-- C8: the `/api/guess` handler normalizes the word (lowercase, trim),
answers exactly "Word must be 5 letters" iff the normalized word is not five
characters long (checked before the vocabulary), answers exactly "Not in
word list" iff the length is five but the word is not in the word set, and
otherwise returns the evaluation against today's answer together with the
solved flag comparing the normalized guess with that same answer. -/
theorem claim8_submit_guess (guess : String) (y m d : Nat) :
    (submitGuess guess y m d = GuessResponse.err "Word must be 5 letters" ↔
      (⟨normalizeWord guess.toList⟩ : String).length ≠ 5) ∧
    (submitGuess guess y m d = GuessResponse.err "Not in word list" ↔
      ((⟨normalizeWord guess.toList⟩ : String).length = 5 ∧
        WORD_SET ⟨normalizeWord guess.toList⟩ = false)) ∧
    ((⟨normalizeWord guess.toList⟩ : String).length = 5 →
      WORD_SET ⟨normalizeWord guess.toList⟩ = true →
      submitGuess guess y m d =
        GuessResponse.ok
          (evaluate (⟨normalizeWord guess.toList⟩ : String).toList
            (getDailyWord y m d).toList)
          ((⟨normalizeWord guess.toList⟩ : String) == getDailyWord y m d)) := by
  have hbody : submitGuess guess y m d =
      (if (⟨normalizeWord guess.toList⟩ : String).length ≠ 5 then
        GuessResponse.err "Word must be 5 letters"
      else if WORD_SET ⟨normalizeWord guess.toList⟩ = false then
        GuessResponse.err "Not in word list"
      else
        GuessResponse.ok
          (evaluate (⟨normalizeWord guess.toList⟩ : String).toList
            (getDailyWord y m d).toList)
          ((⟨normalizeWord guess.toList⟩ : String) == getDailyWord y m d)) := rfl
  by_cases h5 : (⟨normalizeWord guess.toList⟩ : String).length = 5
  · by_cases hv : WORD_SET ⟨normalizeWord guess.toList⟩ = true
    · have hvne : ¬ WORD_SET (⟨normalizeWord guess.toList⟩ : String) = false := by
        rw [hv]
        simp
      have hrun : submitGuess guess y m d =
          GuessResponse.ok
            (evaluate (⟨normalizeWord guess.toList⟩ : String).toList
              (getDailyWord y m d).toList)
            ((⟨normalizeWord guess.toList⟩ : String) == getDailyWord y m d) := by
        rw [hbody, if_neg (not_not_intro h5), if_neg hvne]
      refine ⟨⟨fun hcontra => ?_, fun hne => absurd h5 hne⟩,
        ⟨fun hcontra => ?_, fun hand => absurd hand.2 hvne⟩, fun _ _ => hrun⟩
      · rw [hrun] at hcontra
        exact GuessResponse.noConfusion hcontra
      · rw [hrun] at hcontra
        exact GuessResponse.noConfusion hcontra
    · have hvf : WORD_SET (⟨normalizeWord guess.toList⟩ : String) = false := by
        revert hv
        cases WORD_SET (⟨normalizeWord guess.toList⟩ : String) <;> simp
      have hrun : submitGuess guess y m d = GuessResponse.err "Not in word list" := by
        rw [hbody, if_neg (not_not_intro h5), if_pos hvf]
      refine ⟨⟨fun hcontra => ?_, fun hne => absurd h5 hne⟩,
        ⟨fun _ => ⟨h5, hvf⟩, fun _ => hrun⟩, fun _ hv2 => absurd hv2 hv⟩
      rw [hrun] at hcontra
      simp at hcontra
  · have hrun : submitGuess guess y m d =
        GuessResponse.err "Word must be 5 letters" := by
      rw [hbody, if_pos h5]
    refine ⟨⟨fun _ => h5, fun _ => hrun⟩,
      ⟨fun hcontra => ?_, fun hand => absurd hand.1 h5⟩, fun h5c _ => absurd h5c h5⟩
    rw [hrun] at hcontra
    simp at hcontra

/-- Witness for C8: a padded mixed-case in-vocabulary guess reaches the
evaluation branch. -/
theorem claim8_witness :
    submitGuess " CRane " 2025 0 1 =
      GuessResponse.ok
        (evaluate (⟨normalizeWord " CRane ".toList⟩ : String).toList
          (getDailyWord 2025 0 1).toList)
        ((⟨normalizeWord " CRane ".toList⟩ : String) == getDailyWord 2025 0 1) :=
  (claim8_submit_guess " CRane " 2025 0 1).2.2 (by decide) (by decide)

/-- C9: evaluating a 5-letter word against itself yields five "correct" tags,
and the solved flag returned by `/api/guess` is true exactly when the
returned evaluation consists of five "correct" tags. -/
theorem claim9_solved_iff :
    (∀ w : List Char, w.length = 5 → (∀ x ∈ w, 'a' ≤ x ∧ x ≤ 'z') →
      evaluate w w = List.replicate 5 "correct") ∧
    (∀ (guess : String) (y m d : Nat) (r : List String) (s : Bool),
      submitGuess guess y m d = GuessResponse.ok r s →
      (s = true ↔ r = List.replicate 5 "correct")) := by
  constructor
  · intro w hw _
    rw [evaluate_self, hw]
  · intro guess y m d r s hrun
    simp only [submitGuess] at hrun
    split at hrun
    · cases hrun
    · split at hrun
      · cases hrun
      · next hvB =>
        injection hrun with hr hs
        subst hr
        subst hs
        next h5A =>
        have h5 : (⟨normalizeWord guess.toList⟩ : String).length = 5 :=
          not_not.mp h5A
        have hlen_w : (⟨normalizeWord guess.toList⟩ : String).toList.length = 5 := h5
        have hlen_a : (getDailyWord y m d).toList.length = 5 :=
          getDailyWord_length y m d
        have hiff := evaluate_all_correct_iff
          (⟨normalizeWord guess.toList⟩ : String).toList
          (getDailyWord y m d).toList hlen_w hlen_a
        have heq :
            (((⟨normalizeWord guess.toList⟩ : String) == getDailyWord y m d) = true) ↔
              (⟨normalizeWord guess.toList⟩ : String).toList =
                (getDailyWord y m d).toList := by
          rw [beq_iff_eq]
          exact ⟨congrArg String.toList, fun h => String.ext h⟩
        exact heq.trans hiff

/-- Witness for C9 at the word "crane". -/
theorem claim9_witness :
    evaluate "crane".toList "crane".toList = List.replicate 5 "correct" :=
  claim9_solved_iff.1 "crane".toList (by decide) (by decide)

/-- C10: `/api/solve` performs no input validation: every integer submission
is accepted (the model handler has no error outcome and the response always
carries the stored record), and the keep-minimum rule applies unconditionally,
so a zero or negative timeMs is inserted into an empty table and remains the
stored fastest record against every later positive submission. -/
theorem claim10_no_validation (g t n : Int) (ht : t ≤ 0) :
    (recordIfFaster emptyStore g t n).1 g = some ⟨t, n⟩ ∧
    (recordIfFaster emptyStore g t n).2 = some ⟨t, n⟩ ∧
    (∀ t2 n2 : Int, 0 < t2 →
      (recordIfFaster ((recordIfFaster emptyStore g t n).1) g t2 n2).1 g =
        some ⟨t, n⟩) := by
  have h1 : (recordIfFaster emptyStore g t n).1 g = some ⟨t, n⟩ := by
    simp [recordIfFaster, emptyStore]
  refine ⟨h1, h1, ?_⟩
  intro t2 n2 ht2
  rw [recordIfFaster_apply, h1]
  have hn : ¬ t2 < (⟨t, n⟩ : SolveRecord).time_ms := by
    simp only []
    omega
  simp [stepMin, hn]

/-- Witness for C10: a negative time is stored as the record. -/
theorem claim10_witness :
    (recordIfFaster emptyStore 5 (-100) 7).1 5 = some ⟨-100, 7⟩ :=
  (claim10_no_validation 5 (-100) 7 (by norm_num)).1

example : evaluate "crane".toList "crane".toList =
    ["correct", "correct", "correct", "correct", "correct"] := by decide

example : letterHits 'e' "speed".toList (evaluate "speed".toList "erase".toList) = 2 := by
  decide

example : normalizeWord " CRane ".toList = "crane".toList := by decide

example : submitGuess " CRane " 2025 0 1 =
    GuessResponse.ok (evaluate "crane".toList (getDailyWord 2025 0 1).toList)
      ("crane" == getDailyWord 2025 0 1) := by decide

example : getDailyWord 2025 0 1 = "world" := by decide

example :
    (runRace [true, false, false, true]
      { store := none,
        a := { timeMs := 420, numGuesses := 4, snapshot := none, written := false },
        b := { timeMs := 419, numGuesses := 3, snapshot := none, written := false } }).store
      = some ⟨420, 4⟩ := by decide

example :
    (runSolves emptyStore 0 [(300, 3), (300, 4)]) 0 = some ⟨300, 3⟩ := by decide
